import Mathlib

/-!
Shallow embedding of the response-recovery pipeline of the AI-Traveller
repository (files `src/server.js` and `src/netlify/functions/generate.js`;
both files contain character-for-character identical copies of the helpers
`extractJsonFromText` and `sanitizeJsonString` and the same parse cascade,
so each is embedded once below).

Raw text is modelled as `List Char` internally and `String` at the
boundary.  `JSON.parse` is modelled by an executable strict JSON parser
(`jsonParse`).  Numbers are kept as their source token (the pipeline never
inspects numeric values, it only passes parsed structures through), and
duplicate object keys are kept in parse order (no claim involves duplicate
keys).  All recursive definitions use structural or fuel-based recursion so
that every concrete run reduces inside the kernel.

Special characters are written via `Char.ofNat` code points throughout.
-/

namespace AITraveller

/-- Backquote, code point 96. -/
def tick : Char := Char.ofNat 96

/-- Backslash, code point 92. -/
def bsl : Char := Char.ofNat 92

/-- Straight double quote, code point 34. -/
def quo : Char := Char.ofNat 34

/-- Straight single quote (apostrophe), code point 39. -/
def apos : Char := Char.ofNat 39

/-- Opening curly brace, code point 123. -/
def lbrace : Char := Char.ofNat 123

/-- Closing curly brace, code point 125. -/
def rbrace : Char := Char.ofNat 125

/-- Opening square bracket, code point 91. -/
def lbrack : Char := Char.ofNat 91

/-- Closing square bracket, code point 93. -/
def rbrack : Char := Char.ofNat 93

/-- The character class of the JavaScript regex escape backslash-s, and of the
characters removed by `String.prototype.trim` (WhiteSpace plus
LineTerminator as ECMAScript defines them). -/
def jsWs (c : Char) : Bool :=
  c.toNat = 32 || c.toNat = 9 || c.toNat = 10 || c.toNat = 11 || c.toNat = 12 ||
  c.toNat = 13 || c.toNat = 160 || c.toNat = 0x1680 ||
  (0x2000 ≤ c.toNat && c.toNat ≤ 0x200A) || c.toNat = 0x2028 || c.toNat = 0x2029 ||
  c.toNat = 0x202F || c.toNat = 0x205F || c.toNat = 0x3000 || c.toNat = 0xFEFF

/-- ECMAScript line terminators (the characters the regex dot does not match). -/
def isLineTerm (c : Char) : Bool :=
  c.toNat = 10 || c.toNat = 13 || c.toNat = 0x2028 || c.toNat = 0x2029

/-- Drop leading JavaScript whitespace. -/
def dropLeadingWs : List Char → List Char
  | [] => []
  | c :: rest => if jsWs c then dropLeadingWs rest else c :: rest

/-- `String.prototype.trim`: drop whitespace from both ends. -/
def trimJs (l : List Char) : List Char :=
  ((dropLeadingWs ((dropLeadingWs l).reverse)).reverse)

/-- JSON values as produced by `JSON.parse`.  Number tokens are kept verbatim
(the pipeline never computes with numbers); object members are kept in
source order. -/
inductive Json where
  | null : Json
  | bool (b : Bool) : Json
  | num (tok : String) : Json
  | str (s : String) : Json
  | arr (elems : List Json) : Json
  | obj (members : List (String × Json)) : Json

/-- Member lookup on a parsed object (models JS property access on the
pipeline result; no claim involves duplicate keys, where JS access would see
the last occurrence and this lookup the first). -/
def lookupPairs (key : String) : List (String × Json) → Option Json
  | [] => none
  | (k, v) :: rest => if k = key then some v else lookupPairs key rest

/-- Field access on a `Json` value: `some v` when the value is an object with
member `key`. -/
def jLookup (key : String) : Json → Option Json
  | .obj kvs => lookupPairs key kvs
  | _ => none

/-- JSON whitespace as accepted by `JSON.parse` (tab, LF, CR, space only). -/
def jsonWsChar (c : Char) : Bool :=
  c.toNat = 32 || c.toNat = 9 || c.toNat = 10 || c.toNat = 13

/-- Skip JSON whitespace. -/
def skipJWs : List Char → List Char
  | [] => []
  | c :: rest => if jsonWsChar c then skipJWs rest else c :: rest

/-- ASCII digit test. -/
def isDigitCh (c : Char) : Bool := 48 ≤ c.toNat && c.toNat ≤ 57

/-- Hexadecimal digit value. -/
def hexVal (c : Char) : Option Nat :=
  if 48 ≤ c.toNat && c.toNat ≤ 57 then some (c.toNat - 48)
  else if 97 ≤ c.toNat && c.toNat ≤ 102 then some (c.toNat - 87)
  else if 65 ≤ c.toNat && c.toNat ≤ 70 then some (c.toNat - 55)
  else none

/-- Body of a JSON string literal after the opening quote: decode escapes and
stop at the closing quote, returning the decoded characters (accumulated in
reverse) and the remainder.  Control characters below 0x20 are rejected, as
`JSON.parse` does.  A backslash-u escape decodes its four hex digits as a
single code point (surrogate pairing is not modelled; no claim uses it). -/
def parseJStringGo : List Char → List Char → Option (List Char × List Char)
  | _, [] => none
  | acc, c :: rest =>
    if c = quo then some (acc.reverse, rest)
    else if c = bsl then
      match rest with
      | [] => none
      | e :: rest2 =>
        if e = quo then parseJStringGo (quo :: acc) rest2
        else if e = bsl then parseJStringGo (bsl :: acc) rest2
        else if e = '/' then parseJStringGo ('/' :: acc) rest2
        else if e = 'b' then parseJStringGo (Char.ofNat 8 :: acc) rest2
        else if e = 'f' then parseJStringGo (Char.ofNat 12 :: acc) rest2
        else if e = 'n' then parseJStringGo (Char.ofNat 10 :: acc) rest2
        else if e = 'r' then parseJStringGo (Char.ofNat 13 :: acc) rest2
        else if e = 't' then parseJStringGo (Char.ofNat 9 :: acc) rest2
        else if e = 'u' then
          match rest2 with
          | h1 :: h2 :: h3 :: h4 :: rest3 =>
            match hexVal h1, hexVal h2, hexVal h3, hexVal h4 with
            | some a, some b, some c', some d =>
              parseJStringGo (Char.ofNat (((a * 16 + b) * 16 + c') * 16 + d) :: acc) rest3
            | _, _, _, _ => none
          | _ => none
        else none
    else if c.toNat < 32 then none
    else parseJStringGo (c :: acc) rest

/-- Maximal run of ASCII digits. -/
def digitSpan : List Char → List Char × List Char
  | [] => ([], [])
  | c :: rest =>
    if isDigitCh c then
      match digitSpan rest with
      | (d, r) => (c :: d, r)
    else ([], c :: rest)

/-- Integer part of a JSON number: a single 0, or a nonzero digit followed by
more digits. -/
def parseIntPart : List Char → Option (List Char × List Char)
  | [] => none
  | c :: rest =>
    if c.toNat = 48 then some ([c], rest)
    else if isDigitCh c then
      match digitSpan rest with
      | (d, r) => some (c :: d, r)
    else none

/-- Optional fraction part: a dot followed by at least one digit, else
nothing is consumed. -/
def parseFracPart : List Char → List Char × List Char
  | [] => ([], [])
  | c :: rest =>
    if c = '.' then
      match rest with
      | d :: r2 =>
        if isDigitCh d then
          match digitSpan r2 with
          | (ds, r) => ('.' :: d :: ds, r)
        else ([], c :: rest)
      | [] => ([], c :: rest)
    else ([], c :: rest)

/-- Optional exponent part: e or E, optional sign, at least one digit, else
nothing is consumed. -/
def parseExpPart : List Char → List Char × List Char
  | [] => ([], [])
  | c :: rest =>
    if c = 'e' || c = 'E' then
      match rest with
      | s :: r2 =>
        if s = '+' || s = '-' then
          match r2 with
          | d :: r3 =>
            if isDigitCh d then
              match digitSpan r3 with
              | (ds, r) => (c :: s :: d :: ds, r)
            else ([], c :: rest)
          | [] => ([], c :: rest)
        else if isDigitCh s then
          match digitSpan r2 with
          | (ds, r) => (c :: s :: ds, r)
        else ([], c :: rest)
      | [] => ([], c :: rest)
    else ([], c :: rest)

/-- A whole JSON number token starting at a digit or minus sign. -/
def parseNumToken : List Char → Option (List Char × List Char)
  | [] => none
  | c :: rest =>
    if c = '-' then
      match parseIntPart rest with
      | some (ip, r) =>
        match parseFracPart r with
        | (fp, r2) =>
          match parseExpPart r2 with
          | (ep, r3) => some ('-' :: (ip ++ fp ++ ep), r3)
      | none => none
    else
      match parseIntPart (c :: rest) with
      | some (ip, r) =>
        match parseFracPart r with
        | (fp, r2) =>
          match parseExpPart r2 with
          | (ep, r3) => some (ip ++ fp ++ ep, r3)
      | none => none

/-- Parser mode: a single value, the members of an object after its opening
brace, or the elements of an array after its opening bracket. -/
inductive PMode where
  | value : PMode
  | members : PMode
  | elems : PMode

/-- Fuel-indexed strict JSON parser implementing the grammar accepted by
`JSON.parse`.  In `members`/`elems` mode the returned `Json` is the object or
array collecting the remaining members/elements. -/
def parseJ : Nat → PMode → List Char → Option (Json × List Char)
  | 0, _, _ => none
  | fuel + 1, .value, cs =>
    match skipJWs cs with
    | [] => none
    | c :: rest =>
      if c = lbrace then
        match skipJWs rest with
        | d :: r2 => if d = rbrace then some (.obj [], r2) else parseJ fuel .members rest
        | [] => none
      else if c = lbrack then
        match skipJWs rest with
        | d :: r2 => if d = rbrack then some (.arr [], r2) else parseJ fuel .elems rest
        | [] => none
      else if c = quo then
        match parseJStringGo [] rest with
        | some (sc, r) => some (.str (String.mk sc), r)
        | none => none
      else if c = 't' then
        match rest with
        | 'r' :: 'u' :: 'e' :: r => some (.bool true, r)
        | _ => none
      else if c = 'f' then
        match rest with
        | 'a' :: 'l' :: 's' :: 'e' :: r => some (.bool false, r)
        | _ => none
      else if c = 'n' then
        match rest with
        | 'u' :: 'l' :: 'l' :: r => some (.null, r)
        | _ => none
      else
        match parseNumToken (c :: rest) with
        | some (tok, r) => some (.num (String.mk tok), r)
        | none => none
  | fuel + 1, .members, cs =>
    match skipJWs cs with
    | [] => none
    | c :: rest =>
      if c = quo then
        match parseJStringGo [] rest with
        | some (k, r1) =>
          match skipJWs r1 with
          | d :: r2 =>
            if d = ':' then
              match parseJ fuel .value r2 with
              | some (v, r3) =>
                match skipJWs r3 with
                | e :: r4 =>
                  if e = ',' then
                    match parseJ fuel .members r4 with
                    | some (.obj kvs, r5) => some (.obj ((String.mk k, v) :: kvs), r5)
                    | _ => none
                  else if e = rbrace then some (.obj [(String.mk k, v)], r4)
                  else none
                | [] => none
              | none => none
            else none
          | [] => none
        | none => none
      else none
  | fuel + 1, .elems, cs =>
    match parseJ fuel .value cs with
    | some (v, r1) =>
      match skipJWs r1 with
      | e :: r2 =>
        if e = ',' then
          match parseJ fuel .elems r2 with
          | some (.arr xs, r3) => some (.arr (v :: xs), r3)
          | _ => none
        else if e = rbrack then some (.arr [v], r2)
        else none
      | [] => none
    | none => none

/-- Model of `JSON.parse` on a character list: parse one value and require
only whitespace after it.  The fuel `2 * length + 2` is sufficient: every
two fuel decrements consume at least one input character. -/
def jsonParseCore (cs : List Char) : Option Json :=
  match parseJ (2 * cs.length + 2) .value cs with
  | some (v, rest) => if skipJWs rest = [] then some v else none
  | none => none

/-- Model of `JSON.parse` on a string: `some v` exactly when parsing
succeeds, `none` when `JSON.parse` would throw. -/
def jsonParse (s : String) : Option Json := jsonParseCore s.data

/-- Does the list start with three backquotes? -/
def startsTicks : List Char → Bool
  | a :: b :: c :: _ => a = tick && b = tick && c = tick
  | _ => false

/-- Does the list start with the four letters j s o n, case-insensitively? -/
def startsJsonCI : List Char → Bool
  | a :: b :: c :: d :: _ =>
    (a = 'j' || a = 'J') && (b = 's' || b = 'S') && (c = 'o' || c = 'O') &&
    (d = 'n' || d = 'N')
  | _ => false

/-- Does the list start with a fence opener labeled json, i.e. three
backquotes immediately followed by the word json (case-insensitive)?  This is
the literal prefix of the source regex for a json-labeled fence. -/
def startsFenceJson (l : List Char) : Bool := startsTicks l && startsJsonCI (l.drop 3)

/-- The characters strictly before the first occurrence of three backquotes,
or `none` when no such occurrence exists. -/
def takeUntilTicks : List Char → Option (List Char)
  | [] => none
  | c :: rest =>
    if startsTicks (c :: rest) then some []
    else
      match takeUntilTicks rest with
      | some inner => some (c :: inner)
      | none => none

/-- First strategy of `extractJsonFromText`: the source regex matching a
json-labeled fence, with lazy body and greedy whitespace padding.  The
leftmost regex match starts at the first json-labeled opener that is
followed by a later triple backquote; the lazy body together with the two
greedy whitespace paddings makes the capture group exactly the text between
the opener and the earliest following triple backquote with its surrounding
whitespace stripped, so the source's `.trim()` of the group equals the
trimmed interior returned here.  (The group itself never carries leading or
trailing whitespace, so it is empty exactly when the trimmed interior is
empty; the source's truthiness test on the group is therefore the emptiness
test on this result.) -/
def fencedJsonCand : List Char → Option (List Char)
  | [] => none
  | c :: rest =>
    if startsFenceJson (c :: rest) then
      match takeUntilTicks ((c :: rest).drop 7) with
      | some inner => some (trimJs inner)
      | none => none
    else fencedJsonCand rest

/-- Second strategy of `extractJsonFromText`: the source regex matching any
fenced block, same shape as the json-labeled one without the label.  When
the first triple backquote has no later triple backquote after its interior
no match exists at all (a later opener would need a closer even further
right), so the scan stops. -/
def fencedAnyCand : List Char → Option (List Char)
  | [] => none
  | c :: rest =>
    if startsTicks (c :: rest) then
      match takeUntilTicks ((c :: rest).drop 3) with
      | some inner => some (trimJs inner)
      | none => none
    else fencedAnyCand rest

/-- State of the balanced-brace scan of `extractJsonFromText`: brace nesting
depth, whether the scan believes it is inside a double-quoted string, and
the previously seen character (`lastChar` in the source, initially null). -/
structure ScanSt where
  depth : Int
  inString : Bool
  lastChar : Option Char

/-- One character step of the balanced-brace scan, exactly as the source
loop body: a straight double quote toggles string mode unless the previous
character is a literal backslash, and braces update the depth only when the
updated string mode is off. -/
def braceScanStep (ch : Char) (st : ScanSt) : ScanSt :=
  { depth :=
      if (if ch = quo ∧ st.lastChar ≠ some bsl then !st.inString else st.inString) then st.depth
      else if ch = lbrace then st.depth + 1
      else if ch = rbrace then st.depth - 1
      else st.depth
    inString := if ch = quo ∧ st.lastChar ≠ some bsl then !st.inString else st.inString
    lastChar := some ch }

/-- The scan loop: process characters, and return the consumed prefix as
soon as the depth returns to zero after at least one character (the source
condition `depth === 0 && i > firstBrace`).  `none` when the input ends
before that happens. -/
def braceScanGo : ScanSt → Bool → List Char → Option (List Char)
  | _, _, [] => none
  | st, isFirst, c :: rest =>
    if (braceScanStep c st).depth = 0 ∧ isFirst = false then some [c]
    else
      match braceScanGo (braceScanStep c st) false rest with
      | some tail => some (c :: tail)
      | none => none

/-- The suffix of the input starting at its first opening brace (the source
`indexOf` followed by the scan start), `none` when no brace exists. -/
def dropToBrace : List Char → Option (List Char)
  | [] => none
  | c :: rest => if c = lbrace then some (c :: rest) else dropToBrace rest

/-- Third strategy of `extractJsonFromText`: balanced-brace scan from the
first opening brace, returning the trimmed candidate. -/
def braceScanExtract (s : List Char) : Option (List Char) :=
  match dropToBrace s with
  | some t =>
    match braceScanGo ⟨0, false, none⟩ true t with
    | some cand => some (trimJs cand)
    | none => none
  | none => none

/-- Strategies two and three of `extractJsonFromText`: any fenced block if
its captured group is truthy (nonempty), else the balanced-brace scan. -/
def extractFenceAnyOrScan (s : List Char) : Option (List Char) :=
  match fencedAnyCand s with
  | some c => if c = [] then braceScanExtract s else some c
  | none => braceScanExtract s

/-- `extractJsonFromText` from the source (identical in both files): empty
input is falsy and returns null; then the json-labeled fence, any fence, and
the brace scan are tried in order, each fence strategy firing only when its
captured group is truthy (nonempty). -/
def extractCore (s : List Char) : Option (List Char) :=
  if s = [] then none
  else
    match fencedJsonCand s with
    | some c => if c = [] then extractFenceAnyOrScan s else some c
    | none => extractFenceAnyOrScan s

/-- String-level wrapper for `extractJsonFromText`. -/
def extractJsonFromText (s : String) : Option String :=
  (extractCore s.data).map String.mk

/-- If the list starts with three backquotes, optional whitespace and the
word json (case-insensitive), return the remainder after the match: the
replacement step for the source regex replacing such a prefix occurrence by
a bare fence.  The greedy whitespace run must be maximal, since stopping the
run early would leave a whitespace character where the letter j is
required. -/
def wsThenJsonTail : List Char → Option (List Char)
  | [] => none
  | c :: rest =>
    if jsWs c then wsThenJsonTail rest
    else if startsJsonCI (c :: rest) then some ((c :: rest).drop 4)
    else none

/-- Completion of `wsThenJsonTail`: the whole pattern of the first
sanitization regex at the head of the list. -/
def fenceJsonWordTail (l : List Char) : Option (List Char) :=
  if startsTicks l then wsThenJsonTail (l.drop 3) else none

/-- Sanitization step one: replace the first occurrence (the source regex
has no global flag) of a fence opener with optional whitespace and the word
json by a bare fence. -/
def replaceFirstFenceJsonWord : List Char → List Char
  | [] => []
  | c :: rest =>
    match fenceJsonWordTail (c :: rest) with
    | some rem => tick :: tick :: tick :: rem
    | none => c :: replaceFirstFenceJsonWord rest

/-- Sanitization step two: delete every occurrence of three backquotes
(global replace by the empty string, scanning the original text left to
right without overlap). -/
def removeFences : List Char → List Char
  | [] => []
  | [c] => [c]
  | [c, d] => [c, d]
  | c :: d :: e :: rest =>
    if c = tick && d = tick && e = tick then removeFences rest
    else c :: removeFences (d :: e :: rest)

/-- Sanitization step three: the two character-class replaces normalizing
smart quotes, fused into one character map (the classes are disjoint). -/
def smartQuoteMap (c : Char) : Char :=
  if c.toNat = 0x201C || c.toNat = 0x201D then quo
  else if c.toNat = 0x2018 || c.toNat = 0x2019 then apos
  else c

/-- Apply the smart-quote normalization everywhere. -/
def replaceSmartQuotes (l : List Char) : List Char := l.map smartQuoteMap

/-- The remainder after the first star-slash sequence, `none` when there is
none. -/
def dropAfterStarSlash : List Char → Option (List Char)
  | [] => none
  | [_] => none
  | c :: d :: rest =>
    if c = '*' && d = '/' then some rest
    else dropAfterStarSlash (d :: rest)

/-- Sanitization step four: globally delete lazy block comments.  At each
slash-star the match ends at the earliest star-slash; when none exists no
match starts there or anywhere later, so the rest is kept verbatim.  Fuel
bounds the number of steps by the input length. -/
def removeBlockCommentsGo : Nat → List Char → List Char
  | 0, l => l
  | _ + 1, [] => []
  | f + 1, c :: rest =>
    if c = '/' then
      match rest with
      | d :: rest2 =>
        if d = '*' then
          match dropAfterStarSlash rest2 with
          | some rem => removeBlockCommentsGo f rem
          | none => c :: d :: rest2
        else c :: removeBlockCommentsGo f rest
      | [] => [c]
    else c :: removeBlockCommentsGo f rest

/-- Fuel wrapper for block comment removal. -/
def removeBlockComments (l : List Char) : List Char :=
  removeBlockCommentsGo l.length l

/-- Does the list start with two slashes? -/
def startsSlashSlash : List Char → Bool
  | a :: b :: _ => a = '/' && b = '/'
  | _ => false

/-- Drop characters up to but excluding the next line terminator (the regex
dot does not match line terminators, so the terminator survives). -/
def dropLineRest : List Char → List Char
  | [] => []
  | c :: rest => if isLineTerm c then c :: rest else dropLineRest rest

/-- Sanitization step five: globally delete line comments.  The source
pattern matches either at position zero, or a single character that is
neither a colon nor a backslash, followed by two slashes and the rest of the
line; the replacement keeps only the captured character.  Scanning resumes
after each match end (the line terminator position). -/
def removeLineCommentsGo : Nat → Bool → List Char → List Char
  | 0, _, l => l
  | _ + 1, _, [] => []
  | f + 1, atStart, c :: rest =>
    if atStart ∧ c = '/' ∧ startsSlashSlash (c :: rest) then
      removeLineCommentsGo f false (dropLineRest rest)
    else if c ≠ ':' ∧ c ≠ bsl ∧ startsSlashSlash rest then
      c :: removeLineCommentsGo f false (dropLineRest (rest.drop 2))
    else c :: removeLineCommentsGo f false rest

/-- Fuel wrapper for line comment removal, starting at position zero where
the caret alternative of the pattern can fire. -/
def removeLineComments (l : List Char) : List Char :=
  removeLineCommentsGo l.length true l

/-- Lookahead of the trailing-comma pattern after its comma: optional
whitespace then a closing brace or bracket, returning that bracket and the
remainder after it. -/
def matchWsBracket : List Char → Option (Char × List Char)
  | [] => none
  | c :: rest =>
    if c = rbrace ∨ c = rbrack then some (c, rest)
    else if jsWs c then matchWsBracket rest
    else none

/-- Sanitization step six: globally replace a comma, optional whitespace and
a closing brace or bracket by just the bracket, scanning the original text
left to right and resuming after each match end. -/
def removeTrailingCommasGo : Nat → List Char → List Char
  | 0, l => l
  | _ + 1, [] => []
  | f + 1, c :: rest =>
    if c = ',' then
      match matchWsBracket rest with
      | some (b, rem) => b :: removeTrailingCommasGo f rem
      | none => c :: removeTrailingCommasGo f rest
    else c :: removeTrailingCommasGo f rest

/-- Fuel wrapper for trailing-comma removal. -/
def removeTrailingCommas (l : List Char) : List Char :=
  removeTrailingCommasGo l.length l

/-- `sanitizeJsonString` from the source (identical in both files): trim,
then the six global fixes in source order, then trim again.  The source
returns a non-string or empty input unchanged; an empty string is also a
fixed point of this pipeline, so the early return needs no separate case. -/
def sanitizeCore (s : List Char) : List Char :=
  trimJs (removeTrailingCommas (removeLineComments (removeBlockComments
    (replaceSmartQuotes (removeFences (replaceFirstFenceJsonWord (trimJs s)))))))

/-- String-level wrapper for `sanitizeJsonString`. -/
def sanitizeJsonString (s : String) : String := String.mk (sanitizeCore s.data)

/-- Index of the first occurrence of a character, used for the source
`indexOf` calls. -/
def firstIdxGo (c : Char) : List Char → Nat → Option Nat
  | [], _ => none
  | d :: rest, i => if d = c then some i else firstIdxGo c rest (i + 1)

/-- `String.prototype.indexOf` for a single character, as an option instead
of the sentinel minus one. -/
def firstIdx (c : Char) (l : List Char) : Option Nat := firstIdxGo c l 0

/-- `String.prototype.lastIndexOf` for a single character. -/
def lastIdx (c : Char) (l : List Char) : Option Nat :=
  match firstIdx c l.reverse with
  | some i => some (l.length - 1 - i)
  | none => none

/-- `String.prototype.slice(a, b)` for ascending in-range indices. -/
def sliceStr (s : String) (a b : Nat) : String :=
  String.mk ((s.data.drop a).take (b - a))

/-- The guaranteed fallback object of the pipeline:
itinerary is the original raw text and places is the empty array. -/
def fallbackJson (text : String) : Json :=
  .obj [("itinerary", .str text), ("places", .arr [])]

/-- The retry after a failed reparse of the sanitized candidate: slice from
the first opening brace to the last closing brace (the source condition
`first !== -1 && last !== -1 && last > first`) and parse that; on failure
the pipeline falls through to the fallback. -/
def recoverSliceRetry (text : String) (sanitized : String) : Json :=
  match firstIdx lbrace sanitized.data, lastIdx rbrace sanitized.data with
  | some f, some l =>
    if f < l then
      match jsonParse (sliceStr sanitized f (l + 1)) with
      | some v => v
      | none => fallbackJson text
    else fallbackJson text
  | _, _ => fallbackJson text

/-- Processing of a truthy extracted candidate: sanitize, reparse, then the
slice retry.  (The source also appends diagnostic log records on failure;
logging is a side effect outside the returned value and is not modelled.) -/
def recoverFromCandidate (text maybe : String) : Json :=
  match jsonParse (sanitizeJsonString maybe) with
  | some v => v
  | none => recoverSliceRetry text (sanitizeJsonString maybe)

/-- The full parse cascade of the request handler (`app.post` in
`src/server.js` and the success path of `exports.handler` in the Netlify
function): direct parse, extraction, and the guaranteed fallback.  The
source tests the extracted candidate for truthiness, so an empty extracted
string also falls back. -/
def recoverResponse (text : String) : Json :=
  match jsonParse text with
  | some v => v
  | none =>
    match extractJsonFromText text with
    | some maybe => if maybe = "" then fallbackJson text else recoverFromCandidate text maybe
    | none => fallbackJson text

/-- An HTTP response as status code plus JSON body. -/
inductive HttpResp where
  | resp (status : Nat) (body : Json)

/-- The `/generate` handler of `src/server.js` at request granularity: the
configured client handle (null or present), and the outcome of the single
provider call (an exception or the returned text).  The unconfigured check
precedes the provider call and the parse cascade; a provider exception is
caught by the outer handler as a 500. -/
def serverGenerateResponse (genAI : Option Unit) (providerResult : Except Unit String) : HttpResp :=
  match genAI with
  | none => .resp 503 (.obj [("error",
      .str "AI service not configured. Please set GEMINI_API_KEY on the server.")])
  | some _ =>
    match providerResult with
    | .error _ => .resp 500 (.obj [("error",
        .str "Failed to generate itinerary. Please try again.")])
    | .ok text => .resp 200 (recoverResponse text)

/-- The Netlify `exports.handler` at the same granularity, with its method
check before the configuration check. -/
def netlifyHandlerResponse (httpMethod : String) (genAI : Option Unit)
    (providerResult : Except Unit String) : HttpResp :=
  if httpMethod ≠ "POST" then .resp 405 (.obj [("error", .str "Method not allowed")])
  else
    match genAI with
    | none => .resp 503 (.obj [("error", .str "AI service not configured. Set GEMINI_API_KEY.")])
    | some _ =>
      match providerResult with
      | .error _ => .resp 500 (.obj [("error", .str "Internal server error")])
      | .ok text => .resp 200 (recoverResponse text)

/-- Does a character occur in the list? -/
def hasChar (c : Char) : List Char → Bool
  | [] => false
  | d :: rest => d = c || hasChar c rest

/-- Does three consecutive backquotes occur anywhere in the list? -/
def hasTicks3 : List Char → Bool
  | [] => false
  | c :: rest => startsTicks (c :: rest) || hasTicks3 rest

/-- Does the trailing-comma pattern (comma, optional whitespace, closing
brace or bracket) occur anywhere in the list? -/
def hasCWB : List Char → Bool
  | [] => false
  | c :: rest => (c = ',' && (matchWsBracket rest).isSome) || hasCWB rest

/-- The string payload of a JSON string value, if any. -/
def jStrVal : Json → Option String
  | .str s => some s
  | _ => none

/-- The string payload of the itinerary member of a result object, used to
tell concrete result objects apart. -/
def itineraryStr (j : Json) : Option String :=
  (jLookup "itinerary" j).bind jStrVal

example : jsonParse "null" = some .null := rfl
example : extractJsonFromText "Here is your plan:\n```json\n\x7b\"itinerary\":\"Day 1\",\"places\":[]\x7d\n```\n" =
    some "\x7b\"itinerary\":\"Day 1\",\"places\":[]\x7d" := rfl
example : extractJsonFromText "```json```x```" = some "json" := rfl
example : extractJsonFromText "no json here" = none := rfl
example : extractJsonFromText "text \x7b\"a\":\x7b\"b\":1\x7d\x7d tail" = some "\x7b\"a\":\x7b\"b\":1\x7d\x7d" := rfl
example : extractJsonFromText "x \x7b\"s\":\"a \x7b b \x7d c\"\x7d y" = some "\x7b\"s\":\"a \x7b b \x7d c\"\x7d" := rfl
example : sanitizeJsonString "\x7b\"itinerary\":\"X\",\"places\":[],\x7d" = "\x7b\"itinerary\":\"X\",\"places\":[]\x7d" := rfl
example : sanitizeJsonString "\x7b\u201Ca\u201D:\u20181\u2019\x7d" = "\x7b\"a\":\x271\x27\x7d" := rfl
example : sanitizeJsonString "a /* c */ b" = "a  b" := rfl
example : sanitizeJsonString "\x7b\"u\":\"http://x\"\x7d // note" = "\x7b\"u\":\"http://x\"\x7d" := rfl
example : sanitizeJsonString "\x7b\"image\":\"//cdn.example.com/a.png\"\x7d" = "\x7b\"image\":\"" := rfl
example : recoverResponse "Here is your plan:\n```json\n\x7b\"itinerary\":\"Day 1\",\"places\":[]\x7d\n```\n" =
    .obj [("itinerary", .str "Day 1"), ("places", .arr [])] := rfl
example : recoverResponse "random prose" = fallbackJson "random prose" := rfl
example : recoverResponse "" = fallbackJson "" := rfl
example : jsonParse " \x7b \x7d " = some (.obj []) := rfl
example : jsonParse "\x7b\"a\":1\x7d" = some (.obj [("a", .num "1")]) := rfl
example : jsonParse "\x7b\"a\": [1, true, \"x\"], \"b\": -2.5e3\x7d" =
    some (.obj [("a", .arr [.num "1", .bool true, .str "x"]), ("b", .num "-2.5e3")]) := rfl
example : jsonParse "\x7b\"a\":1,\x7d" = none := rfl
example : jsonParse "[[[[[0]]]]]" = some (.arr [.arr [.arr [.arr [.arr [.num "0"]]]]]) := rfl
example : jsonParse "hello" = none := rfl
example : jsonParse "" = none := rfl
example : jsonParse "\x7b\"s\":\"a\\\\b\"\x7d" = some (.obj [("s", .str "a\\b")]) := rfl

/-- A text without triple backquotes has no json-labeled fence. -/
lemma fencedJsonCand_of_no_ticks (l : List Char) (h : hasTicks3 l = false) :
    fencedJsonCand l = none := by
  induction l with
  | nil => rfl
  | cons c rest ih =>
    rw [hasTicks3] at h
    simp only [Bool.or_eq_false_iff] at h
    rw [fencedJsonCand]
    have hsf : startsFenceJson (c :: rest) = false := by
      rw [startsFenceJson, h.1, Bool.false_and]
    rw [hsf]
    simp only [Bool.false_eq_true, if_false]
    exact ih h.2

/-- A text without triple backquotes has no fenced block at all. -/
lemma fencedAnyCand_of_no_ticks (l : List Char) (h : hasTicks3 l = false) :
    fencedAnyCand l = none := by
  induction l with
  | nil => rfl
  | cons c rest ih =>
    rw [hasTicks3] at h
    simp only [Bool.or_eq_false_iff] at h
    rw [fencedAnyCand, h.1]
    simp only [Bool.false_eq_true, if_false]
    exact ih h.2

/-- A text without an opening brace gives the brace scan nothing to start
from. -/
lemma dropToBrace_of_no_brace (l : List Char) (h : hasChar lbrace l = false) :
    dropToBrace l = none := by
  induction l with
  | nil => rfl
  | cons c rest ih =>
    rw [hasChar] at h
    simp only [Bool.or_eq_false_iff, decide_eq_false_iff_not] at h
    rw [dropToBrace, if_neg h.1]
    exact ih h.2

/-- Appending a comma and more text to a failed whitespace-bracket lookahead
still fails: the comma is neither whitespace nor a closing bracket. -/
lemma matchWsBracket_append_comma (l z : List Char) (h : matchWsBracket l = none) :
    matchWsBracket (l ++ ',' :: z) = none := by
  induction l with
  | nil =>
    rw [List.nil_append, matchWsBracket]
    rw [if_neg (by decide), if_neg (by decide)]
  | cons c rest ih =>
    rw [matchWsBracket] at h
    rw [List.cons_append, matchWsBracket]
    by_cases hb : c = rbrace ∨ c = rbrack
    · rw [if_pos hb] at h; exact absurd h (by simp)
    · rw [if_neg hb] at h ⊢
      by_cases hw : jsWs c
      · rw [if_pos hw] at h ⊢; exact ih h
      · rw [if_neg hw]

/-- The whitespace-bracket lookahead succeeds on a whitespace run followed
by a closing bracket, returning that bracket and the rest. -/
lemma matchWsBracket_ws_bracket (w : List Char) (b : Char) (rest : List Char)
    (hw : w.all jsWs = true) (hb : b = rbrace ∨ b = rbrack) :
    matchWsBracket (w ++ b :: rest) = some (b, rest) := by
  induction w with
  | nil =>
    rw [List.nil_append, matchWsBracket, if_pos hb]
  | cons c w' ih =>
    rw [List.all_cons, Bool.and_eq_true] at hw
    rw [List.cons_append, matchWsBracket]
    have hnb : ¬(c = rbrace ∨ c = rbrack) := by
      rintro (h | h) <;> subst h <;> exact absurd hw.1 (by decide)
    rw [if_neg hnb, if_pos hw.1]
    exact ih hw.2

/-- A successful whitespace-bracket lookahead consumes at least one
character. -/
lemma matchWsBracket_length (l : List Char) (b : Char) (rem : List Char)
    (h : matchWsBracket l = some (b, rem)) : rem.length < l.length := by
  induction l generalizing b rem with
  | nil => exact absurd h (by rw [matchWsBracket]; simp)
  | cons c rest ih =>
    rw [matchWsBracket] at h
    by_cases hb : c = rbrace ∨ c = rbrack
    · rw [if_pos hb] at h
      injection h with h'
      injection h' with h1 h2
      subst h2
      simp
    · rw [if_neg hb] at h
      by_cases hw : jsWs c
      · rw [if_pos hw] at h
        have := ih b rem h
        simp only [List.length_cons]
        omega
      · rw [if_neg hw] at h; exact absurd h (by simp)

/-- The trailing-comma pass ignores its exact fuel as long as the fuel
covers the input length. -/
lemma removeTrailingCommasGo_fuel (n : Nat) :
    ∀ f1 f2 l, l.length ≤ n → l.length ≤ f1 → l.length ≤ f2 →
      removeTrailingCommasGo f1 l = removeTrailingCommasGo f2 l := by
  induction n with
  | zero =>
    intro f1 f2 l hn _ _
    have hl : l = [] := List.length_eq_zero.mp (Nat.le_zero.mp hn)
    subst hl
    cases f1 <;> cases f2 <;> rfl
  | succ n ih =>
    intro f1 f2 l hn h1 h2
    cases l with
    | nil => cases f1 <;> cases f2 <;> rfl
    | cons c rest =>
      simp only [List.length_cons] at hn h1 h2
      cases f1 with
      | zero => omega
      | succ f1' =>
        cases f2 with
        | zero => omega
        | succ f2' =>
          rw [removeTrailingCommasGo, removeTrailingCommasGo]
          by_cases hc : c = ','
          · rw [if_pos hc, if_pos hc]
            cases hm : matchWsBracket rest with
            | some p =>
              obtain ⟨b, rem⟩ := p
              have hlen := matchWsBracket_length rest b rem hm
              show b :: removeTrailingCommasGo f1' rem = b :: removeTrailingCommasGo f2' rem
              rw [ih f1' f2' rem (by omega) (by omega) (by omega)]
            | none =>
              show c :: removeTrailingCommasGo f1' rest = c :: removeTrailingCommasGo f2' rest
              rw [ih f1' f2' rest (by omega) (by omega) (by omega)]
          · rw [if_neg hc, if_neg hc,
              ih f1' f2' rest (by omega) (by omega) (by omega)]

/-- Composition lemma for claim seven: ahead of a region free of the
trailing-comma pattern, a comma followed by whitespace and a closing bracket
is removed, and the pass continues after the bracket. -/
lemma removeTrailingCommasGo_append :
    ∀ (pre : List Char) (f : Nat) (w : List Char) (b : Char) (rest : List Char),
      hasCWB pre = false → w.all jsWs = true → (b = rbrace ∨ b = rbrack) →
      pre.length + w.length + rest.length + 2 ≤ f →
      removeTrailingCommasGo f (pre ++ ',' :: (w ++ b :: rest)) =
        pre ++ b :: removeTrailingCommasGo rest.length rest := by
  intro pre
  induction pre with
  | nil =>
    intro f w b rest _ hw hb hf
    simp only [List.length_nil] at hf
    cases f with
    | zero => omega
    | succ f' =>
      rw [List.nil_append, removeTrailingCommasGo, if_pos rfl,
        matchWsBracket_ws_bracket w b rest hw hb]
      show b :: removeTrailingCommasGo f' rest = [] ++ b :: removeTrailingCommasGo rest.length rest
      rw [List.nil_append,
        removeTrailingCommasGo_fuel rest.length f' rest.length rest le_rfl (by omega) le_rfl]
  | cons c pre' ih =>
    intro f w b rest h hw hb hf
    rw [hasCWB] at h
    simp only [Bool.or_eq_false_iff, Bool.and_eq_false_iff] at h
    simp only [List.length_cons] at hf
    cases f with
    | zero => omega
    | succ f' =>
      rw [List.cons_append, removeTrailingCommasGo]
      by_cases hc : c = ','
      · have hmp : matchWsBracket pre' = none := by
          rcases h.1 with h1 | h1
          · exact absurd (decide_eq_true hc) (by rw [h1]; simp)
          · exact Option.not_isSome_iff_eq_none.mp (by rw [h1]; simp)
        rw [if_pos hc, matchWsBracket_append_comma pre' (w ++ b :: rest) hmp]
        show c :: removeTrailingCommasGo f' (pre' ++ ',' :: (w ++ b :: rest)) =
          (c :: pre') ++ b :: removeTrailingCommasGo rest.length rest
        rw [ih f' w b rest h.2 hw hb (by omega), List.cons_append]
      · rw [if_neg hc]
        show c :: removeTrailingCommasGo f' (pre' ++ ',' :: (w ++ b :: rest)) =
          (c :: pre') ++ b :: removeTrailingCommasGo rest.length rest
        rw [ih f' w b rest h.2 hw hb (by omega), List.cons_append]

set_option maxHeartbeats 2000000 in
/-- C1: for every raw text handed to the response-recovery pipeline, the
pipeline terminates (it is a total function) and returns exactly one result:
either a value on which a JSON parse succeeded (the raw text itself, the
sanitized candidate, or its brace-to-brace slice), or the fallback object
with the original raw text as itinerary and an empty places array. -/
theorem c1_pipeline_total (text : String) :
    (∃ c, jsonParse c = some (recoverResponse text)) ∨
      recoverResponse text = fallbackJson text := by
  cases h : jsonParse text with
  | some v => exact Or.inl ⟨text, by simp only [recoverResponse, h]⟩
  | none =>
    cases he : extractJsonFromText text with
    | none => exact Or.inr (by simp only [recoverResponse, h, he])
    | some m =>
      by_cases hm : m = ""
      · exact Or.inr (by simp only [recoverResponse, h, he, if_pos hm])
      · cases h2 : jsonParse (sanitizeJsonString m) with
        | some v =>
          exact Or.inl ⟨sanitizeJsonString m,
            by simp only [recoverResponse, h, he, if_neg hm, recoverFromCandidate, h2]⟩
        | none =>
          cases hf : firstIdx lbrace (sanitizeJsonString m).data with
          | none =>
            cases hl : lastIdx rbrace (sanitizeJsonString m).data with
            | none =>
              exact Or.inr (by simp only [recoverResponse, h, he, if_neg hm,
                recoverFromCandidate, h2, recoverSliceRetry, hf, hl])
            | some l =>
              exact Or.inr (by simp only [recoverResponse, h, he, if_neg hm,
                recoverFromCandidate, h2, recoverSliceRetry, hf, hl])
          | some f =>
            cases hl : lastIdx rbrace (sanitizeJsonString m).data with
            | none =>
              exact Or.inr (by simp only [recoverResponse, h, he, if_neg hm,
                recoverFromCandidate, h2, recoverSliceRetry, hf, hl])
            | some l =>
              by_cases hfl : f < l
              · cases h3 : jsonParse (sliceStr (sanitizeJsonString m) f (l + 1)) with
                | some v =>
                  exact Or.inl ⟨sliceStr (sanitizeJsonString m) f (l + 1),
                    by simp only [recoverResponse, h, he, if_neg hm, recoverFromCandidate,
                      h2, recoverSliceRetry, hf, hl, if_pos hfl, h3]⟩
                | none =>
                  exact Or.inr (by simp only [recoverResponse, h, he, if_neg hm,
                    recoverFromCandidate, h2, recoverSliceRetry, hf, hl, if_pos hfl, h3])
              · exact Or.inr (by simp only [recoverResponse, h, he, if_neg hm,
                  recoverFromCandidate, h2, recoverSliceRetry, hf, hl, if_neg hfl])

set_option maxHeartbeats 2000000 in
/-- C2: the pipeline attempts its strategies in strict order and stops at
the first success: a successful direct parse is returned as is; a
json-labeled fence with truthy interior wins the extraction; otherwise any
fence with truthy interior wins; the balanced-brace scan runs only when no
fence produced a truthy interior; a truthy candidate is sanitized and
reparsed, and on failure the pipeline moves to the slice retry; and on the
concrete prose-plus-json-fence example the fenced object is returned. -/
theorem c2_strategy_order :
    (∀ text v, jsonParse text = some v → recoverResponse text = v) ∧
    (∀ s c, fencedJsonCand s.data = some c → c ≠ [] →
      extractJsonFromText s = some (String.mk c)) ∧
    (∀ s c, (fencedJsonCand s.data = none ∨ fencedJsonCand s.data = some []) →
      fencedAnyCand s.data = some c → c ≠ [] →
      extractJsonFromText s = some (String.mk c)) ∧
    (∀ s, (fencedJsonCand s.data = none ∨ fencedJsonCand s.data = some []) →
      (fencedAnyCand s.data = none ∨ fencedAnyCand s.data = some []) →
      extractJsonFromText s = (braceScanExtract s.data).map String.mk) ∧
    (∀ text m v, jsonParse text = none → extractJsonFromText text = some m → m ≠ "" →
      jsonParse (sanitizeJsonString m) = some v → recoverResponse text = v) ∧
    (∀ text m, jsonParse text = none → extractJsonFromText text = some m → m ≠ "" →
      jsonParse (sanitizeJsonString m) = none →
      recoverResponse text = recoverSliceRetry text (sanitizeJsonString m)) ∧
    recoverResponse "Here is your plan:\n```json\n\x7b\"itinerary\":\"Day 1\",\"places\":[]\x7d\n```\n" =
      .obj [("itinerary", .str "Day 1"), ("places", .arr [])] := by
  refine ⟨?_, ?_, ?_, ?_, ?_, ?_, rfl⟩
  · intro text v h
    simp only [recoverResponse, h]
  · intro s c h hne
    by_cases hs : s.data = []
    · rw [hs] at h
      exact Option.noConfusion h
    · simp only [extractJsonFromText, extractCore, if_neg hs, h, if_neg hne, Option.map]
  · intro s c hfj hfa hne
    by_cases hs : s.data = []
    · rw [hs] at hfa
      exact Option.noConfusion hfa
    · rcases hfj with h | h
      · simp only [extractJsonFromText, extractCore, if_neg hs, h,
          extractFenceAnyOrScan, hfa, if_neg hne, Option.map]
      · simp only [extractJsonFromText, extractCore, if_neg hs, h, eq_self_iff_true,
          if_true, extractFenceAnyOrScan, hfa, if_neg hne, Option.map]
  · intro s hfj hfa
    by_cases hs : s.data = []
    · rw [extractJsonFromText, extractCore, if_pos hs, hs]
      rfl
    · rcases hfj with h | h <;> rcases hfa with h2 | h2 <;>
        simp only [extractJsonFromText, extractCore, if_neg hs, h, h2,
          extractFenceAnyOrScan, eq_self_iff_true, if_true]
  · intro text m v h1 h2 hne h3
    simp only [recoverResponse, h1, h2, if_neg hne, recoverFromCandidate, h3]
  · intro text m h1 h2 hne h3
    simp only [recoverResponse, h1, h2, if_neg hne, recoverFromCandidate, h3]

/-- Concrete instantiation of the strategy-order theorem: the direct-parse
rule at a pure JSON input, the json-fence rule at a labeled fence, and the
sanitize-and-reparse rule at a prose-wrapped unlabeled fence. -/
theorem c2_strategy_order_witness :
    recoverResponse "\x7b\"k\":true\x7d" = Json.obj [("k", .bool true)] ∧
    extractJsonFromText "```json\nnope\n```" = some "nope" ∧
    recoverResponse "pre ```\n\x7b\"z\":null\x7d\n```" = Json.obj [("z", Json.null)] :=
  ⟨c2_strategy_order.1 "\x7b\"k\":true\x7d" (Json.obj [("k", .bool true)]) rfl,
   c2_strategy_order.2.1 "```json\nnope\n```" "nope".data rfl (by decide),
   c2_strategy_order.2.2.2.2.1 "pre ```\n\x7b\"z\":null\x7d\n```" "\x7b\"z\":null\x7d"
     (Json.obj [("z", Json.null)]) rfl rfl (by decide) rfl⟩

/-- C3 counterexample: the raw text consisting of an empty JSON object
parses directly and is returned verbatim with neither an itinerary nor a
places member, so the ItineraryResult invariant does not hold on every
return path of the cascade. -/
theorem c3_invariant_counterexample :
    recoverResponse "\x7b\x7d" = Json.obj [] ∧
    jLookup "itinerary" (recoverResponse "\x7b\x7d") = none ∧
    jLookup "places" (recoverResponse "\x7b\x7d") = none :=
  ⟨rfl, rfl, rfl⟩

/-- C3 amended: the invariant holds on the fallback path: the fallback
object always has itinerary present as the raw text string and places
present as the empty array, and the pipeline returns it whenever the direct
parse fails and nothing is extracted; parse-success paths return the parsed
JSON verbatim with no schema validation, so they may lack either field. -/
theorem c3_invariant_amended :
    (∀ text, jLookup "itinerary" (fallbackJson text) = some (.str text) ∧
      jLookup "places" (fallbackJson text) = some (.arr [])) ∧
    (∀ text, jsonParse text = none → extractJsonFromText text = none →
      recoverResponse text = fallbackJson text) := by
  refine ⟨fun text => ⟨rfl, rfl⟩, fun text h he => ?_⟩
  simp only [recoverResponse, h, he]

/-- Concrete instantiation of the amended invariant theorem on a prose
input where every strategy fails. -/
theorem c3_invariant_amended_witness :
    recoverResponse "plain prose answer" = fallbackJson "plain prose answer" ∧
    jLookup "itinerary" (fallbackJson "plain prose answer") =
      some (.str "plain prose answer") :=
  ⟨c3_invariant_amended.2 "plain prose answer" rfl rfl,
   (c3_invariant_amended.1 "plain prose answer").1⟩

/-- C4 counterexample: the raw text consisting of an empty JSON array
contains no opening brace, yet the direct parse succeeds and the pipeline
returns the parsed array rather than the fallback object. -/
theorem c4_no_brace_counterexample :
    hasChar lbrace "[]".data = false ∧
    recoverResponse "[]" = Json.arr [] ∧
    recoverResponse "[]" ≠ fallbackJson "[]" :=
  ⟨rfl, rfl, fun h => Json.noConfusion h⟩

/-- C4 amended: for every raw text that contains no opening brace, is not
itself parseable as JSON (a brace-free text can still be a valid JSON
array, string, number or literal), and contains no triple-backquote fence
marker, the result is exactly the fallback object. -/
theorem c4_no_brace_amended (text : String)
    (hb : hasChar lbrace text.data = false)
    (ht : hasTicks3 text.data = false)
    (hp : jsonParse text = none) :
    recoverResponse text = fallbackJson text := by
  have hex : extractJsonFromText text = none := by
    by_cases hs : text.data = []
    · rw [extractJsonFromText, extractCore, if_pos hs]
      rfl
    · simp only [extractJsonFromText, extractCore, if_neg hs,
        fencedJsonCand_of_no_ticks _ ht, extractFenceAnyOrScan,
        fencedAnyCand_of_no_ticks _ ht, braceScanExtract,
        dropToBrace_of_no_brace _ hb, Option.map]
  simp only [recoverResponse, hp, hex]

/-- Concrete instantiation of the amended no-brace theorem. -/
theorem c4_no_brace_amended_witness :
    recoverResponse "just words, no objects." = fallbackJson "just words, no objects." :=
  c4_no_brace_amended "just words, no objects." rfl rfl rfl

/-- C5 counterexample: a raw text whose first balanced JSON object is valid
and keeps its braces inside a double-quoted string value, but whose string
value also contains two slashes.  The quote-aware scan does extract the full
object, and that object parses as JSON on its own, yet sanitization strips
the supposed line comment inside the string value, every reparse fails, and
the pipeline returns the fallback instead of the object. -/
theorem c5_quote_scan_counterexample :
    extractJsonFromText "See \x7b\"itinerary\":\"go \x7b here \x7d // now\",\"places\":[]\x7d" =
      some "\x7b\"itinerary\":\"go \x7b here \x7d // now\",\"places\":[]\x7d" ∧
    jsonParse "\x7b\"itinerary\":\"go \x7b here \x7d // now\",\"places\":[]\x7d" =
      some (Json.obj [("itinerary", .str "go \x7b here \x7d // now"), ("places", .arr [])]) ∧
    recoverResponse "See \x7b\"itinerary\":\"go \x7b here \x7d // now\",\"places\":[]\x7d" =
      fallbackJson "See \x7b\"itinerary\":\"go \x7b here \x7d // now\",\"places\":[]\x7d" ∧
    fallbackJson "See \x7b\"itinerary\":\"go \x7b here \x7d // now\",\"places\":[]\x7d" ≠
      Json.obj [("itinerary", .str "go \x7b here \x7d // now"), ("places", .arr [])] :=
  ⟨rfl, rfl, rfl, fun h => absurd (congrArg itineraryStr h) (by decide)⟩

/-- C5 amended: braces seen inside a double-quoted string never change the
scan depth, so the scan does not end early inside a string; a raw text whose
extracted candidate is untouched by sanitization and parses as JSON is
returned as that object; and the Old Town example is returned unmodified
both bare and behind a prose prefix. -/
theorem c5_quote_scan_amended :
    (∀ st ch, st.inString = true → (ch = lbrace ∨ ch = rbrace) →
      (braceScanStep ch st).depth = st.depth) ∧
    (∀ text m v, jsonParse text = none → extractJsonFromText text = some m → m ≠ "" →
      sanitizeJsonString m = m → jsonParse m = some v → recoverResponse text = v) ∧
    recoverResponse "\x7b\"itinerary\":\"Visit the \x7b Old Town \x7d\",\"places\":[]\x7d" =
      Json.obj [("itinerary", .str "Visit the \x7b Old Town \x7d"), ("places", .arr [])] ∧
    recoverResponse "Note: \x7b\"itinerary\":\"Visit the \x7b Old Town \x7d\",\"places\":[]\x7d" =
      Json.obj [("itinerary", .str "Visit the \x7b Old Town \x7d"), ("places", .arr [])] := by
  refine ⟨?_, ?_, rfl, rfl⟩
  · intro st ch hin hbr
    have hq : ¬(ch = quo ∧ st.lastChar ≠ some bsl) := by
      rintro ⟨hc, -⟩
      rcases hbr with h | h <;> subst h <;> exact absurd hc (by decide)
    simp only [braceScanStep, if_neg hq, if_pos hin]
  · intro text m v h1 h2 hne hsan hp
    simp only [recoverResponse, h1, h2, if_neg hne, recoverFromCandidate, hsan, hp]

/-- Concrete instantiation of the amended quote-awareness theorem: a brace
under string mode leaves the depth alone, and a prose-prefixed object with
braces inside a string value survives the whole cascade. -/
theorem c5_quote_scan_amended_witness :
    (braceScanStep lbrace ⟨5, true, none⟩).depth = 5 ∧
    recoverResponse "Ok \x7b\"t\":\"a \x7b b \x7d\"\x7d" =
      Json.obj [("t", .str "a \x7b b \x7d")] :=
  ⟨c5_quote_scan_amended.1 ⟨5, true, none⟩ lbrace rfl (Or.inl rfl),
   c5_quote_scan_amended.2.1 "Ok \x7b\"t\":\"a \x7b b \x7d\"\x7d" "\x7b\"t\":\"a \x7b b \x7d\"\x7d"
     (Json.obj [("t", .str "a \x7b b \x7d")]) rfl rfl (by decide) rfl rfl⟩

/-- C6 counterexample: a straight quote whose preceding character is a
literal backslash does not toggle string mode, even when that backslash is
itself escaped.  On the raw text with a string value consisting of one
escaped backslash, the scan therefore stays in string mode, never rebalances
correctly, extraction fails, and the pipeline falls back. -/
theorem c6_escape_toggle_counterexample :
    (braceScanStep quo ⟨1, true, some bsl⟩).inString = true ∧
    extractJsonFromText "pre \x7b\"a\":\"\\\\\",\"b\":1\x7d" = none ∧
    recoverResponse "pre \x7b\"a\":\"\\\\\",\"b\":1\x7d" =
      fallbackJson "pre \x7b\"a\":\"\\\\\",\"b\":1\x7d" :=
  ⟨rfl, rfl, rfl⟩

/-- C6 amended: in the balanced-brace scan a double quote toggles string
mode exactly when the immediately preceding character is not a literal
backslash; in particular a quote preceded by an escaped backslash does not
toggle string mode, because the scan inspects only the single preceding
character. -/
theorem c6_escape_toggle_amended (st : ScanSt) (ch : Char) :
    ((braceScanStep ch st).inString ≠ st.inString) ↔ (ch = quo ∧ st.lastChar ≠ some bsl) := by
  by_cases h : ch = quo ∧ st.lastChar ≠ some bsl
  · simp only [braceScanStep, if_pos h]
    constructor
    · intro _; exact h
    · intro _; cases hb : st.inString <;> simp
  · simp only [braceScanStep, if_neg h]
    constructor
    · intro hne; exact absurd rfl hne
    · intro hc; exact absurd hc h

/-- C7: the trailing-comma pass removes a comma standing, up to whitespace,
before a closing brace or bracket anywhere after a region free of that
pattern, and on the trailing-comma example the whole pipeline recovers the
intended object. -/
theorem c7_trailing_commas :
    (∀ pre w b rest, hasCWB pre = false → w.all jsWs = true → (b = rbrace ∨ b = rbrack) →
      removeTrailingCommas (pre ++ ',' :: (w ++ b :: rest)) =
        pre ++ b :: removeTrailingCommas rest) ∧
    recoverResponse "\x7b\"itinerary\":\"X\",\"places\":[],\x7d" =
      Json.obj [("itinerary", .str "X"), ("places", .arr [])] := by
  refine ⟨?_, rfl⟩
  intro pre w b rest hp hw hb
  simp only [removeTrailingCommas]
  exact removeTrailingCommasGo_append pre ((pre ++ ',' :: (w ++ b :: rest)).length) w b rest
    hp hw hb (by simp only [List.length_append, List.length_cons]; omega)

/-- Concrete instantiation of the trailing-comma theorem. -/
theorem c7_trailing_commas_witness :
    removeTrailingCommas ("[1".data ++ ',' :: (" ".data ++ rbrack :: " tail".data)) =
      "[1".data ++ rbrack :: removeTrailingCommas " tail".data :=
  c7_trailing_commas.1 "[1".data " ".data rbrack " tail".data
    (by decide) (by decide) (Or.inr rfl)

/-- C8 counterexample: an object using curly single quotes as its string
delimiters is normalized by sanitization to straight apostrophes, which
JSON still rejects, so the pipeline returns the fallback instead of the
corresponding object. -/
theorem c8_smart_quotes_counterexample :
    recoverResponse "\x7b\u2018itinerary\u2019:\u2018X\u2019,\u2018places\u2019:[]\x7d" =
      fallbackJson "\x7b\u2018itinerary\u2019:\u2018X\u2019,\u2018places\u2019:[]\x7d" ∧
    fallbackJson "\x7b\u2018itinerary\u2019:\u2018X\u2019,\u2018places\u2019:[]\x7d" ≠
      Json.obj [("itinerary", .str "X"), ("places", .arr [])] :=
  ⟨rfl, fun h => absurd (congrArg itineraryStr h) (by decide)⟩

/-- C8 amended: sanitization maps curly double quotes to straight double
quotes and curly single quotes to straight apostrophes.  Whenever the direct
parse fails, a truthy candidate is extracted, the full sanitization of that
candidate amounts to exactly its smart-quote normalization (no other
sanitization pass touches it), and the normalized candidate parses as JSON,
the pipeline returns that parsed object; the curly-double itinerary example
satisfies these conditions and is repaired and parsed.  Curly single quotes
become straight apostrophes, which JSON still rejects (counterexample
theorem); and when another pass does alter the normalized candidate the
repair can fail, which is why the fixed-point hypothesis is required. -/
theorem c8_smart_quotes_amended :
    smartQuoteMap (Char.ofNat 0x201C) = quo ∧ smartQuoteMap (Char.ofNat 0x201D) = quo ∧
    smartQuoteMap (Char.ofNat 0x2018) = apos ∧ smartQuoteMap (Char.ofNat 0x2019) = apos ∧
    (∀ text m v, jsonParse text = none → extractJsonFromText text = some m → m ≠ "" →
      sanitizeJsonString m = String.mk (replaceSmartQuotes m.data) →
      jsonParse (String.mk (replaceSmartQuotes m.data)) = some v →
      recoverResponse text = v) ∧
    sanitizeJsonString "\x7b\u201Citinerary\u201D:\u201CX\u201D,\u201Cplaces\u201D:[]\x7d" =
      "\x7b\"itinerary\":\"X\",\"places\":[]\x7d" ∧
    recoverResponse "\x7b\u201Citinerary\u201D:\u201CX\u201D,\u201Cplaces\u201D:[]\x7d" =
      Json.obj [("itinerary", .str "X"), ("places", .arr [])] := by
  refine ⟨rfl, rfl, rfl, rfl, ?_, rfl, rfl⟩
  intro text m v h1 h2 hne hsan hp
  simp only [recoverResponse, h1, h2, if_neg hne, recoverFromCandidate, hsan, hp]

/-- Concrete instantiation of the amended smart-quote theorem: a second
curly-double-quoted object, repaired purely by quote normalization and
returned parsed. -/
theorem c8_smart_quotes_amended_witness :
    recoverResponse "\x7b\u201Ctitle\u201D:\u201CY\u201D\x7d" =
      Json.obj [("title", .str "Y")] :=
  c8_smart_quotes_amended.2.2.2.2.1 "\x7b\u201Ctitle\u201D:\u201CY\u201D\x7d"
    "\x7b\u201Ctitle\u201D:\u201CY\u201D\x7d" (Json.obj [("title", .str "Y")])
    rfl rfl (by decide) rfl rfl

/-- C9: with the provider client unconfigured, both handlers answer the
distinct service-unavailable response with status 503, and the response does
not depend on the provider outcome at all, so neither the provider nor the
extraction and sanitization logic is ever consulted. -/
theorem c9_unconfigured_503 :
    (∀ p, serverGenerateResponse none p = HttpResp.resp 503 (.obj [("error",
      .str "AI service not configured. Please set GEMINI_API_KEY on the server.")])) ∧
    (∀ p, netlifyHandlerResponse "POST" none p = HttpResp.resp 503 (.obj [("error",
      .str "AI service not configured. Set GEMINI_API_KEY.")])) ∧
    (∀ p q, serverGenerateResponse none p = serverGenerateResponse none q) ∧
    (∀ m p q, netlifyHandlerResponse m none p = netlifyHandlerResponse m none q) := by
  refine ⟨fun p => rfl, fun p => rfl, fun p q => rfl, fun m p q => ?_⟩
  unfold netlifyHandlerResponse
  split <;> rfl

/-- C10: comment stripping applies inside JSON string values: a candidate
that is valid JSON whose string value holds a protocol-relative URL is
changed by sanitization (the quote before the two slashes is neither a colon
nor a backslash, so the match fires) into a prefix that no longer parses;
and a block comment inside a string value is deleted as well. -/
theorem c10_comment_strip_in_strings :
    jsonParse "\x7b\"image\":\"//cdn.example.com/a.png\"\x7d" =
      some (Json.obj [("image", .str "//cdn.example.com/a.png")]) ∧
    sanitizeJsonString "\x7b\"image\":\"//cdn.example.com/a.png\"\x7d" = "\x7b\"image\":\"" ∧
    sanitizeJsonString "\x7b\"image\":\"//cdn.example.com/a.png\"\x7d" ≠
      "\x7b\"image\":\"//cdn.example.com/a.png\"\x7d" ∧
    jsonParse (sanitizeJsonString "\x7b\"image\":\"//cdn.example.com/a.png\"\x7d") = none ∧
    removeBlockComments "\x7b\"note\":\"a/*x*/b\"\x7d".data = "\x7b\"note\":\"ab\"\x7d".data :=
  ⟨rfl, rfl, by decide, rfl, rfl⟩

end AITraveller
